import Mathlib

/-!
# Verification of the pycroscopy `Cluster` processing component

Shallow embedding of `pycroscopy/processing/cluster.py`: the `Cluster`
class (construction-time estimator allowlist check, parameter snapshot,
duplicate detection, `test`, `compute`, `delete_results`,
`_get_mean_response`, `_write_results_chunk`) and the module-level
function `reorder_clusters`.

Modelling conventions:
* Complex scalars are pairs `(re, im)` of rationals (`Cx`); the sidpy
  dtype transform that flattens a complex row into a real row (real
  parts followed by imaginary parts) and its inverse are embedded as
  `flatten_complex_row` / `stack_real_to_complex`.
* 2-D numpy arrays are `List (List Cx)` (row major); 1-D integer label
  arrays are `List Nat`.
* External collaborators (sklearn estimator `fit`, scipy
  `pdist`/`linkage`, the pyUSID duplicate detector and HDF5 file) are
  modelled at their interfaces: the fit's label vector and the linkage
  tree's child-reference rows are inputs, the HDF5 file is a list of
  persisted result records, and the pyUSID `reshape_to_n_dims` /
  `np.squeeze` round trip between flat and N-dimensional layouts is
  modelled as the identity on the flat representation.
-/

namespace Pycro

/-- A complex scalar, modelled as (real part, imaginary part) over `ℚ`. -/
abbrev Cx : Type := ℚ × ℚ

/-- sidpy `flatten_complex_to_real` on one row: real parts of all entries,
followed by imaginary parts of all entries. -/
def flatten_complex_row (r : List Cx) : List ℚ :=
  r.map Prod.fst ++ r.map Prod.snd

/-- sidpy `stack_real_to_target_dtype` for a complex target: the first `w`
real entries become real parts, the next `w` become imaginary parts. -/
def stack_real_to_complex (w : Nat) (v : List ℚ) : List Cx :=
  (v.take w).zip (v.drop w)

/-- Column slice `row[comp_slice]`: the selected feature columns, in the
order given by the resolved component selection. -/
def slice_comps (comps : List Nat) (row : List Cx) : List Cx :=
  comps.map (fun j => row.getD j (0, 0))

/-- Columnwise sum of a list of real rows of width `w`
(the reduction inside `np.mean(..., axis=0)`). -/
def col_sum (w : Nat) (rows : List (List ℚ)) : List ℚ :=
  rows.foldl (fun acc r => List.zipWith (· + ·) acc r) (List.replicate w 0)

/-- Columnwise arithmetic mean of a list of real rows of width `w`
(`np.mean(..., axis=0)`). -/
def col_mean (w : Nat) (rows : List (List ℚ)) : List ℚ :=
  (col_sum w rows).map (fun s => s / (rows.length : ℚ))

/-- `np.argwhere(labels_vec == clust_ind)`: the position indices whose
label equals `c`. -/
def targ_pos (labels : List Nat) (c : Nat) : List Nat :=
  (List.range labels.length).filter (fun i => labels.getD i 0 = c)

/-- Body of `Cluster._get_mean_response.__mean_resp_for_cluster`: gather the
rows labelled `c`, slice to the selected components, flatten to real scalar
space, average columnwise, and stack back to the source dtype. -/
def mean_resp_for_cluster (data : List (List Cx)) (comps : List Nat)
    (labels : List Nat) (c : Nat) : List Cx :=
  let chunk := (targ_pos labels c).map
    (fun i => flatten_complex_row (slice_comps comps (data.getD i [])))
  stack_real_to_complex comps.length (col_mean (2 * comps.length) chunk)

/-- `len(np.unique(labels))`: the number of distinct label values. -/
def num_clusts (labels : List Nat) : Nat := labels.dedup.length

/-- `Cluster._get_mean_response`: one mean-response row per cluster index,
assembled in increasing cluster-index order (the `parallel_compute`
collaborator guarantees assembly by index, not by completion order). -/
def get_mean_response (data : List (List Cx)) (comps : List Nat)
    (labels : List Nat) : List (List Cx) :=
  (List.range (num_clusts labels)).map (mean_resp_for_cluster data comps labels)

/-! ## `reorder_clusters` -/

/-- The child references of a scipy linkage matrix, row major: columns 0
and 1 of each merge row, flattened in row order. -/
def children_list (Z : List (Nat × Nat)) : List Nat :=
  (Z.map (fun p => [p.1, p.2])).flatten

/-- One linkage row of the `new_cluster_order` loop: for each of the two
child columns, append the child whenever it references an original leaf
(index `< num_clusters`). -/
def nco_step (num_clusters : Nat) (acc : List Nat) (p : Nat × Nat) : List Nat :=
  let acc1 := if p.1 < num_clusters then acc ++ [p.1] else acc
  if p.2 < num_clusters then acc1 ++ [p.2] else acc1

/-- The `new_cluster_order` loop of `reorder_clusters`: walk the linkage
rows in order, appending original-leaf children as encountered. -/
def new_cluster_order (num_clusters : Nat) (Z : List (Nat × Nat)) : List Nat :=
  Z.foldl (nco_step num_clusters) []

/-- One iteration of the relabelling loop
`new_labels[np.where(labels == new_clust_ind)[0]] = old_clust_ind`. -/
def assign_pass (labels cur : List Nat) (rank v : Nat) : List Nat :=
  List.zipWith (fun l c => if l = v then rank else c) labels cur

/-- The relabelling loop of `reorder_clusters`: starting from
`np.zeros(labels.shape)`, for each `(rank, old_index)` in the enumerated
new order, overwrite the positions carrying `old_index` with `rank`. -/
def reorder_labels (order labels : List Nat) : List Nat :=
  (order.enum).foldl (fun cur p => assign_pass labels cur p.1 p.2)
    (labels.map (fun _ => 0))

/-- `np.zeros(shape=mean_response.shape)` rows (numpy arrays are
rectangular, so every row has the width of the first). -/
def zero_row (mr : List (List Cx)) : List Cx :=
  List.replicate (mr.headD []).length (0, 0)

/-- The centroid-reordering loop of `reorder_clusters`:
`new_mean_response[rank] = mean_response[order[rank]]`; rows never reached
by the loop keep their `np.zeros` initial value. -/
def reorder_centroids (order : List Nat) (mr : List (List Cx)) : List (List Cx) :=
  (List.range mr.length).map (fun r =>
    match order.get? r with
    | some j => mr.getD j (zero_row mr)
    | none => zero_row mr)

/-- `reorder_clusters(labels, mean_response)` given the linkage rows `Z`
returned by the scipy `linkage(pdist(...), 'weighted')` collaborator. -/
def reorder_clusters (labels : List Nat) (mr : List (List Cx))
    (Z : List (Nat × Nat)) : List Nat × List (List Cx) :=
  let order := new_cluster_order mr.length Z
  (reorder_labels order labels, reorder_centroids order mr)

/-- The index pairs `(i, j)`, `i < j`, of the condensed distance matrix
`scipy.spatial.distance.pdist` produces for `m` observation rows. -/
def pdist_pairs (m : Nat) : List (Nat × Nat) :=
  ((List.range m).map (fun i =>
    ((List.range m).filter (fun j => i < j)).map (fun j => (i, j)))).flatten

/-- `reorder_clusters` including the fallible scipy call: `linkage` raises
`ValueError` when the condensed distance matrix from `pdist` is empty
(fewer than two observation rows), and succeeds otherwise. -/
def reorder_clusters_checked (labels : List Nat) (mr : List (List Cx))
    (Z : List (Nat × Nat)) : Except String (List Nat × List (List Cx)) :=
  if pdist_pairs mr.length = [] then
    Except.error "The number of observations cannot be determined on an empty distance matrix."
  else
    Except.ok (reorder_clusters labels mr Z)

/-- Structural well-formedness of a scipy linkage matrix over `K`
original leaves: `K - 1` merge rows, row `i` merging two node references
below `K + i`, and no node reference merged twice. -/
def ValidLinkage (K : Nat) (Z : List (Nat × Nat)) : Prop :=
  Z.length = K - 1 ∧
  (∀ i (h : i < Z.length), (Z.get ⟨i, h⟩).1 < K + i ∧ (Z.get ⟨i, h⟩).2 < K + i) ∧
  (children_list Z).Nodup

/-! ## Construction-time estimator allowlist -/

/-- The type of the `sklearn.cluster` estimator object handed to
`Cluster.__init__`; `other` stands for any estimator class outside the
five families named in `allowed_methods`. -/
inductive SkEstimator where
  | agglomerativeClustering
  | birch
  | kMeans
  | miniBatchKMeans
  | spectralClustering
  | other (name : String)
deriving DecidableEq

/-- `str(estimator)[:str(estimator).index('(')]`, the printed class name. -/
def method_name : SkEstimator → String
  | .agglomerativeClustering => "AgglomerativeClustering"
  | .birch => "Birch"
  | .kMeans => "KMeans"
  | .miniBatchKMeans => "MiniBatchKMeans"
  | .spectralClustering => "SpectralClustering"
  | .other n => n

/-- The `allowed_methods` list in `Cluster.__init__`. -/
def allowed_methods : List SkEstimator :=
  [.agglomerativeClustering, .birch, .kMeans, .miniBatchKMeans,
   .spectralClustering]

/-- The allowlist gate of `Cluster.__init__`: raise when
`type(estimator) not in allowed_methods`, otherwise continue. -/
def check_estimator (e : SkEstimator) : Except String Unit :=
  if e ∈ allowed_methods then Except.ok ()
  else Except.error ("Cannot work with " ++ method_name e ++ " just yet")

/-! ## Parameter snapshot (`parms_dict`) -/

/-- An HDF5 attribute value in the snapshot: a string or an integer. -/
abbrev PVal : Type := Sum String Nat

/-- Python `dict` update of one key: replace the existing binding or
append a fresh one. -/
def dict_update (d : List (String × PVal)) (k : String) (v : PVal) :
    List (String × PVal) :=
  if d.any (fun p => p.1 = k) then
    d.map (fun p => if p.1 = k then (k, v) else p)
  else d ++ [(k, v)]

/-- The `parms_dict` as it stands when `_check_for_duplicates` is called
in `Cluster.__init__`: algorithm name and component selection, updated
with `estimator.get_params()`, then updated with `n_jobs := self._cores`
— the `n_jobs` update happens before the duplicate check. -/
def mk_parms_dict (algo : String) (comp_attr : PVal)
    (estimator_params : List (String × PVal)) (cores : Nat) :
    List (String × PVal) :=
  let base : List (String × PVal) :=
    [("cluster_algorithm", Sum.inl algo), ("spectral_components", comp_attr)]
  let d1 := estimator_params.foldl (fun d p => dict_update d p.1 p.2) base
  dict_update d1 "n_jobs" (Sum.inr cores)

/-! ## The `Cluster` object as a state machine

The HDF5 file is a list of persisted result groups; construction snapshots
the matching groups (`_check_for_duplicates`) into
`duplicate_h5_groups`. -/

/-- A persisted results group: its handle and the stored `Labels` and
`Mean_Response` main datasets. -/
structure ResultRecord where
  grpId : Nat
  recLabels : List Nat
  recCentroids : List (List Cx)
deriving DecidableEq

/-- The mutable state of a `Cluster` instance together with the backing
HDF5 file. `fitCount` counts invocations of `estimator.fit`. -/
structure ClusterState where
  duplicate_h5_groups : List ResultRecord
  cachedLabels : Option (List Nat)
  cachedMeanResp : Option (List (List Cx))
  h5_results_grp : Option Nat
  fileGroups : List ResultRecord
  nextGrpId : Nat
  fitCount : Nat
deriving DecidableEq

/-- The fixed collaborator data of one fingerprint: the dataset, the
resolved component selection, the label vector `estimator.fit` produces
on it, and the linkage rows scipy returns for the mean-response
centroids. -/
structure FitEnv where
  data : List (List Cx)
  comps : List Nat
  fitLabels : List Nat
  linkageRows : List (Nat × Nat)

/-- What `Cluster.test` returns (flat layout; the pyUSID reshape/squeeze
round trip is modelled as the identity). -/
structure TestOutput where
  retLabels : List Nat
  retCentroids : List (List Cx)
deriving DecidableEq

/-- The state of a freshly constructed `Cluster`: duplicate snapshot from
`_check_for_duplicates`, no cached results, no pending results group. -/
def constructed_state (dups file : List ResultRecord) (nextId : Nat) :
    ClusterState :=
  ⟨dups, none, none, none, file, nextId, 0⟩

/-- `Cluster.delete_results`: clear the cached labels and mean response
and the pending results-group reference. -/
def delete_results (s : ClusterState) : ClusterState :=
  { s with cachedLabels := none, cachedMeanResp := none,
           h5_results_grp := none }

/-- `Cluster.test`: on a cache hit (`override` false and a non-empty
duplicate snapshot) hand back the last matching group's stored arrays;
otherwise fit, compute the mean response, optionally reorder, and cache. -/
def Cluster.test (env : FitEnv) (rearrange override : Bool)
    (s : ClusterState) : Except String (TestOutput × ClusterState) :=
  if override = false ∧ s.duplicate_h5_groups ≠ [] then
    match s.duplicate_h5_groups.getLast? with
    | some r =>
      Except.ok (⟨r.recLabels, r.recCentroids⟩,
                 { s with h5_results_grp := some r.grpId })
    | none => Except.error "unreachable: a non-empty list has a last element"
  else
    let labels0 := env.fitLabels
    let mr0 := get_mean_response env.data env.comps labels0
    let s1 := { s with h5_results_grp := none, fitCount := s.fitCount + 1 }
    if rearrange then
      match reorder_clusters_checked labels0 mr0 env.linkageRows with
      | Except.error e => Except.error e
      | Except.ok (l2, m2) =>
        Except.ok (⟨l2, m2⟩,
                   { s1 with cachedLabels := some l2, cachedMeanResp := some m2 })
    else
      Except.ok (⟨labels0, mr0⟩,
                 { s1 with cachedLabels := some labels0,
                           cachedMeanResp := some mr0 })

/-- `Cluster._write_results_chunk`: append a new results group holding the
cached arrays, point `h5_results_grp` at it, and return its handle. -/
def write_results_chunk (s : ClusterState) : Nat × ClusterState :=
  let rec0 : ResultRecord :=
    ⟨s.nextGrpId, s.cachedLabels.getD [], s.cachedMeanResp.getD []⟩
  (s.nextGrpId,
   { s with fileGroups := s.fileGroups ++ [rec0],
            h5_results_grp := some s.nextGrpId,
            nextGrpId := s.nextGrpId + 1 })

/-- `Cluster.compute`: run `test` first when nothing is cached; then
either persist the cached arrays in a new group (and free the cache) or
hand back the already-known results group. -/
def Cluster.compute (env : FitEnv) (rearrange override : Bool)
    (s : ClusterState) : Except String (Nat × ClusterState) :=
  let step1 : Except String ClusterState :=
    if s.cachedLabels = none ∧ s.cachedMeanResp = none then
      Except.map Prod.snd (Cluster.test env rearrange override s)
    else Except.ok s
  match step1 with
  | Except.error e => Except.error e
  | Except.ok s1 =>
    match s1.h5_results_grp with
    | none =>
      let g := (write_results_chunk s1).1
      let s2 := (write_results_chunk s1).2
      Except.ok (g, delete_results s2)
    | some g => Except.ok (g, s1)

/-! ## Concrete fixtures used in witnesses and counterexamples -/

/-- A two-position, one-feature dataset whose fit splits the positions
into two singleton clusters; `[(0, 1)]` is the (only possible) linkage
over its two centroids. -/
def two_point_env : FitEnv := ⟨[[(1, 0)], [(3, 0)]], [0], [0, 1], [(0, 1)]⟩

/-- A persisted results group standing for a pre-existing matching
fingerprint. -/
def sample_record : ResultRecord := ⟨7, [0, 0, 1], [[(1, 0)], [(2, 0)]]⟩

/-- The state of a fresh instance over an empty file after one
`compute(override=False)` on `two_point_env`: group 0 persisted, cache
freed. -/
def fresh_run_state : ClusterState :=
  ⟨[], none, none, none,
   [⟨0, two_point_env.fitLabels,
     get_mean_response two_point_env.data two_point_env.comps
       two_point_env.fitLabels⟩], 1, 1⟩

/-- A dataset on which the estimator discovers a single cluster. -/
def one_cluster_env : FitEnv := ⟨[[(1, 0)], [(1, 0)]], [0], [0, 0], []⟩

/-- Three-cluster centroid matrix used to exercise `reorder_clusters`. -/
def mr3 : List (List Cx) := [[(1, 0)], [(5, 0)], [(6, 0)]]

/-- A structurally valid weighted-linkage result over the three centroids
of `mr3`: clusters 1 and 2 merge first (distance 1), then leaf 0 joins
the merged node 3. -/
def Z3 : List (Nat × Nat) := [(1, 2), (0, 3)]

/-- A label vector over four positions covering clusters 0, 1, 2. -/
def labels3 : List Nat := [0, 1, 2, 2]

/-- A two-position complex dataset split into two singleton clusters. -/
def cdata2 : List (List Cx) := [[(1, 2)], [(3, 4)]]

/-! ## Helper lemmas -/

theorem nco_foldl_eq (K : Nat) :
    ∀ (Z : List (Nat × Nat)) (acc : List Nat),
      Z.foldl (nco_step K) acc
        = acc ++ (children_list Z).filter (fun x => decide (x < K))
  | [], acc => by simp [children_list]
  | p :: rest, acc => by
    rw [List.foldl_cons, nco_foldl_eq K rest]
    simp only [children_list, List.map_cons, List.flatten_cons,
      List.filter_append, nco_step]
    by_cases h1 : p.1 < K <;> by_cases h2 : p.2 < K <;>
      simp [h1, h2, List.filter_cons, List.append_assoc]

/-- The `new_cluster_order` walk keeps exactly the original-leaf children,
in row-major encounter order. -/
theorem new_cluster_order_eq_filter (K : Nat) (Z : List (Nat × Nat)) :
    new_cluster_order K Z
      = (children_list Z).filter (fun x => decide (x < K)) := by
  rw [new_cluster_order, nco_foldl_eq]
  simp

theorem children_list_cons (p : Nat × Nat) (rest : List (Nat × Nat)) :
    children_list (p :: rest) = [p.1, p.2] ++ children_list rest := by
  simp [children_list]

theorem children_list_length (Z : List (Nat × Nat)) :
    (children_list Z).length = 2 * Z.length := by
  induction Z with
  | nil => rfl
  | cons p rest ih =>
    rw [children_list_cons, List.length_append, ih, List.length_cons]
    simp
    omega

theorem children_list_mem (Z : List (Nat × Nat)) (x : Nat) :
    x ∈ children_list Z ↔ ∃ p ∈ Z, x = p.1 ∨ x = p.2 := by
  simp only [children_list, List.mem_flatten, List.mem_map]
  constructor
  · rintro ⟨l, ⟨p, hp, rfl⟩, hx⟩
    exact ⟨p, hp, by simpa using hx⟩
  · rintro ⟨p, hp, hx⟩
    exact ⟨[p.1, p.2], ⟨p, hp, rfl⟩, by simpa using hx⟩

theorem children_bound {K : Nat} {Z : List (Nat × Nat)}
    (hv : ValidLinkage K Z) (hK : 2 ≤ K) :
    ∀ x ∈ children_list Z, x < 2 * (K - 1) := by
  intro x hx
  obtain ⟨p, hp, hor⟩ := (children_list_mem Z x).mp hx
  obtain ⟨i, hgi⟩ := List.mem_iff_get.mp hp
  have hb := hv.2.1 i.1 i.2
  simp only [Fin.eta] at hb
  have hlen : Z.length = K - 1 := hv.1
  have hi : (i : Nat) < K - 1 := by rw [← hlen]; exact i.2
  rcases hor with h | h <;> rw [h, ← hgi] <;> obtain ⟨h1, h2⟩ := hb <;> omega

theorem perm_range_of_nodup_of_lt {l : List Nat} {n : Nat} (hnd : l.Nodup)
    (hlt : ∀ x ∈ l, x < n) (hlen : l.length = n) :
    l.Perm (List.range n) := by
  have hsub : l ⊆ List.range n := fun x hx => List.mem_range.mpr (hlt x hx)
  exact (hnd.subperm hsub).perm_of_length_le (by simp [hlen])

theorem filter_range_lt (K : Nat) :
    ∀ n, (List.range n).filter (fun x => decide (x < K))
      = List.range (min K n)
  | 0 => by simp
  | n + 1 => by
    rw [List.range_succ, List.filter_append, filter_range_lt K n]
    by_cases h : n < K
    · have : min K (n + 1) = n + 1 := by omega
      have h2 : min K n = n := by omega
      simp [h, this, h2, List.range_succ]
    · have : min K (n + 1) = K := by omega
      have h2 : min K n = K := by omega
      simp [h, this, h2]

/-- The order extracted from a structurally valid linkage over `K ≥ 2`
leaves is a permutation of `{0, …, K-1}`. -/
theorem new_cluster_order_perm {K : Nat} {Z : List (Nat × Nat)}
    (hK : 2 ≤ K) (hv : ValidLinkage K Z) :
    (new_cluster_order K Z).Perm (List.range K) := by
  rw [new_cluster_order_eq_filter]
  have hlen : (children_list Z).length = 2 * (K - 1) := by
    rw [children_list_length, hv.1]
  have hperm : (children_list Z).Perm (List.range (2 * (K - 1))) :=
    perm_range_of_nodup_of_lt hv.2.2 (children_bound hv hK) hlen
  have hf := hperm.filter (fun x => decide (x < K))
  rw [filter_range_lt] at hf
  have : min K (2 * (K - 1)) = K := by omega
  rwa [this] at hf

theorem new_cluster_order_length {K : Nat} {Z : List (Nat × Nat)}
    (hK : 2 ≤ K) (hv : ValidLinkage K Z) :
    (new_cluster_order K Z).length = K := by
  rw [(new_cluster_order_perm hK hv).length_eq, List.length_range]

theorem new_cluster_order_nodup {K : Nat} {Z : List (Nat × Nat)}
    (hK : 2 ≤ K) (hv : ValidLinkage K Z) :
    (new_cluster_order K Z).Nodup :=
  ((new_cluster_order_perm hK hv).nodup_iff).mpr (List.nodup_range K)

theorem new_cluster_order_mem {K : Nat} {Z : List (Nat × Nat)}
    (hK : 2 ≤ K) (hv : ValidLinkage K Z) (x : Nat) :
    x ∈ new_cluster_order K Z ↔ x < K := by
  rw [(new_cluster_order_perm hK hv).mem_iff, List.mem_range]

theorem assign_pass_length (labels cur : List Nat) (rank v : Nat) :
    (assign_pass labels cur rank v).length = min labels.length cur.length := by
  simp [assign_pass]

theorem assign_pass_getD (labels cur : List Nat) (rank v i : Nat)
    (hi : i < labels.length) (hc : cur.length = labels.length) :
    (assign_pass labels cur rank v).getD i 0
      = if labels.getD i 0 = v then rank else cur.getD i 0 := by
  have hiz : i < (assign_pass labels cur rank v).length := by
    rw [assign_pass_length]; omega
  have hic : i < cur.length := by omega
  rw [List.getD_eq_getElem _ _ hiz, List.getD_eq_getElem _ _ hi,
    List.getD_eq_getElem _ _ hic]
  simp [assign_pass, List.getElem_zipWith]

theorem fold_assign_length (labels : List Nat) :
    ∀ (l : List (Nat × Nat)) (cur : List Nat), cur.length = labels.length →
      (l.foldl (fun c p => assign_pass labels c p.1 p.2) cur).length
        = labels.length
  | [], _, h => h
  | _ :: rest, cur, h =>
    fold_assign_length labels rest _ (by rw [assign_pass_length]; omega)

theorem fold_assign_getD (labels : List Nat) (i : Nat) (hi : i < labels.length) :
    ∀ (ord : List Nat) (k : Nat) (cur : List Nat), ord.Nodup →
      cur.length = labels.length →
      ((ord.enumFrom k).foldl (fun c p => assign_pass labels c p.1 p.2)
          cur).getD i 0
        = if labels.getD i 0 ∈ ord then k + ord.indexOf (labels.getD i 0)
          else cur.getD i 0
  | [], k, cur, _, _ => by simp
  | v :: rest, k, cur, hnd, hc => by
    have hvnotin : v ∉ rest := (List.nodup_cons.mp hnd).1
    have hstep : (v :: rest).enumFrom k = (k, v) :: rest.enumFrom (k + 1) := rfl
    rw [hstep, List.foldl_cons]
    rw [fold_assign_getD labels i hi rest (k + 1) _ (List.nodup_cons.mp hnd).2
      (by rw [assign_pass_length]; omega)]
    rw [assign_pass_getD labels cur k v i hi hc]
    by_cases hv : labels.getD i 0 = v
    · have hnr : labels.getD i 0 ∉ rest := by rw [hv]; exact hvnotin
      have hmc : labels.getD i 0 ∈ v :: rest := by
        rw [hv]; exact List.mem_cons_self v rest
      rw [if_neg hnr, if_pos hv, if_pos hmc, hv, List.indexOf_cons_self]
      omega
    · by_cases hm : labels.getD i 0 ∈ rest
      · have hne : v ≠ labels.getD i 0 := fun h => hv h.symm
        have hmc : labels.getD i 0 ∈ v :: rest := List.mem_cons_of_mem v hm
        rw [if_pos hm, if_pos hmc, List.indexOf_cons_ne _ hne]
        omega
      · have hnc : labels.getD i 0 ∉ v :: rest := by
          intro h
          rcases List.mem_cons.mp h with h1 | h1
          · exact hv h1
          · exact hm h1
        rw [if_neg hm, if_neg hv, if_neg hnc]

theorem reorder_labels_length (order labels : List Nat) :
    (reorder_labels order labels).length = labels.length := by
  rw [reorder_labels]
  exact fold_assign_length labels _ _ (by simp)

/-- With a duplicate-free order covering the label in question, the
relabelling loop sends a position's label to its rank (index) in the
order. -/
theorem reorder_labels_getD (order labels : List Nat) (i : Nat)
    (hnd : order.Nodup) (hi : i < labels.length)
    (hmem : labels.getD i 0 ∈ order) :
    (reorder_labels order labels).getD i 0
      = order.indexOf (labels.getD i 0) := by
  rw [reorder_labels, show order.enum = order.enumFrom 0 from rfl]
  rw [fold_assign_getD labels i hi order 0 _ hnd (by simp)]
  rw [if_pos hmem, Nat.zero_add]

/-- The condensed distance matrix is empty exactly when there are fewer
than two observation rows. -/
theorem pdist_pairs_eq_nil (m : Nat) : pdist_pairs m = [] ↔ m ≤ 1 := by
  constructor
  · intro h
    by_contra hm
    have h2 : 2 ≤ m := by omega
    have hmem : (0, 1) ∈ pdist_pairs m := by
      rw [pdist_pairs]
      refine List.mem_flatten.mpr ⟨_, List.mem_map.mpr ⟨0, ?_, rfl⟩, ?_⟩
      · exact List.mem_range.mpr (by omega)
      · exact List.mem_map.mpr ⟨1, List.mem_filter.mpr
          ⟨List.mem_range.mpr (by omega), by decide⟩, rfl⟩
    rw [h] at hmem
    exact absurd hmem (List.not_mem_nil _)
  · intro h
    interval_cases m <;> rfl

theorem reorder_centroids_length (order : List Nat) (mr : List (List Cx)) :
    (reorder_centroids order mr).length = mr.length := by
  simp [reorder_centroids]

theorem reorder_centroids_getD (order : List Nat) (mr : List (List Cx))
    (r : Nat) (d : List Cx) (hr : r < mr.length) (ho : r < order.length) :
    (reorder_centroids order mr).getD r d
      = mr.getD (order.getD r 0) (zero_row mr) := by
  have hlen : r < (reorder_centroids order mr).length := by
    rw [reorder_centroids_length]; exact hr
  rw [List.getD_eq_getElem _ _ hlen]
  simp only [reorder_centroids, List.getElem_map, List.getElem_range]
  have hsome : order.get? r = some (order.getD r 0) := by
    rw [List.getD_eq_getElem _ _ ho]
    simp [List.get?_eq_getElem?, List.getElem?_eq_getElem ho]
  rw [hsome]

/-- A list whose membership is exactly `{0, …, n-1}` has `n` distinct
values. -/
theorem dedup_length_of_mem_iff {l : List Nat} {n : Nat}
    (h : ∀ x, x ∈ l ↔ x < n) : l.dedup.length = n := by
  have h1 : List.Subperm l.dedup (List.range n) :=
    l.nodup_dedup.subperm (fun x hx =>
      List.mem_range.mpr ((h x).mp (List.mem_dedup.mp hx)))
  have h2 : List.Subperm (List.range n) l.dedup :=
    (List.nodup_range n).subperm (fun x hx =>
      List.mem_dedup.mpr ((h x).mpr (List.mem_range.mp hx)))
  have := h1.length_le
  have := h2.length_le
  simp only [List.length_range] at *
  omega

theorem fold_zip_add_length (w : Nat) :
    ∀ (rows : List (List ℚ)) (acc : List ℚ), acc.length = w →
      (∀ r ∈ rows, r.length = w) →
      (rows.foldl (fun acc r => List.zipWith (· + ·) acc r) acc).length = w
  | [], _, h, _ => h
  | r :: rest, acc, h, hr =>
    fold_zip_add_length w rest _
      (by rw [List.length_zipWith, h, hr r (List.mem_cons_self r rest)]; omega)
      (fun x hx => hr x (List.mem_cons_of_mem r hx))

theorem fold_zip_add_getD (w j : Nat) (hj : j < w) :
    ∀ (rows : List (List ℚ)) (acc : List ℚ), acc.length = w →
      (∀ r ∈ rows, r.length = w) →
      (rows.foldl (fun acc r => List.zipWith (· + ·) acc r) acc).getD j 0
        = acc.getD j 0 + (rows.map (fun r => r.getD j 0)).sum
  | [], acc, _, _ => by simp
  | r :: rest, acc, h, hr => by
    rw [List.foldl_cons,
      fold_zip_add_getD w j hj rest _
        (by rw [List.length_zipWith, h, hr r (List.mem_cons_self r rest)]; omega)
        (fun x hx => hr x (List.mem_cons_of_mem r hx))]
    have hrl : r.length = w := hr r (List.mem_cons_self r rest)
    have hjz : j < (List.zipWith (· + ·) acc r).length := by
      rw [List.length_zipWith, h, hrl]; omega
    rw [List.getD_eq_getElem _ _ hjz, List.getElem_zipWith,
      List.map_cons, List.sum_cons,
      ← List.getD_eq_getElem acc 0 (by omega : j < acc.length),
      ← List.getD_eq_getElem r 0 (by omega : j < r.length)]
    ring

theorem col_sum_length (w : Nat) (rows : List (List ℚ))
    (hr : ∀ r ∈ rows, r.length = w) : (col_sum w rows).length = w :=
  fold_zip_add_length w rows _ (by simp) hr

theorem col_sum_getD (w j : Nat) (hj : j < w) (rows : List (List ℚ))
    (hr : ∀ r ∈ rows, r.length = w) :
    (col_sum w rows).getD j 0 = (rows.map (fun r => r.getD j 0)).sum := by
  rw [col_sum, fold_zip_add_getD w j hj rows _ (by simp) hr]
  have : (List.replicate w (0 : ℚ)).getD j 0 = 0 := by
    rw [List.getD_eq_getElem _ _ (by simp [hj]), List.getElem_replicate]
  rw [this, zero_add]

theorem col_mean_getD (w j : Nat) (hj : j < w) (rows : List (List ℚ))
    (hr : ∀ r ∈ rows, r.length = w) :
    (col_mean w rows).getD j 0
      = (rows.map (fun r => r.getD j 0)).sum / (rows.length : ℚ) := by
  have hcl : j < (col_sum w rows).length := by rw [col_sum_length w rows hr]; omega
  rw [col_mean, List.getD_eq_getElem _ _ (by simp [hcl]), List.getElem_map,
    ← List.getD_eq_getElem _ (0 : ℚ) hcl, col_sum_getD w j hj rows hr]

theorem flatten_complex_row_length (r : List Cx) :
    (flatten_complex_row r).length = 2 * r.length := by
  rw [flatten_complex_row, List.length_append, List.length_map,
    List.length_map]
  omega

theorem flatten_complex_row_getD_fst (r : List Cx) (j : Nat)
    (hj : j < r.length) :
    (flatten_complex_row r).getD j 0 = (r.getD j (0, 0)).1 := by
  have h1 : j < (flatten_complex_row r).length := by
    rw [flatten_complex_row_length]; omega
  have h2 : j < (r.map Prod.fst).length := by simp [hj]
  rw [List.getD_eq_getElem _ _ h1]
  simp only [flatten_complex_row, List.getElem_append_left h2,
    List.getElem_map]
  rw [← List.getD_eq_getElem r (0, 0) hj]

theorem flatten_complex_row_getD_snd (r : List Cx) (j : Nat)
    (hj : j < r.length) :
    (flatten_complex_row r).getD (r.length + j) 0 = (r.getD j (0, 0)).2 := by
  have h1 : r.length + j < (flatten_complex_row r).length := by
    rw [flatten_complex_row_length]; omega
  have h2 : (r.map Prod.fst).length ≤ r.length + j := by simp
  rw [List.getD_eq_getElem _ _ h1]
  simp only [flatten_complex_row, List.getElem_append_right h2]
  have h3 : r.length + j - (r.map Prod.fst).length = j := by simp
  simp only [h3, List.getElem_map]
  rw [← List.getD_eq_getElem r (0, 0) hj]

theorem slice_comps_length (comps : List Nat) (row : List Cx) :
    (slice_comps comps row).length = comps.length := by
  simp [slice_comps]

theorem slice_comps_getD (comps : List Nat) (row : List Cx) (j : Nat)
    (hj : j < comps.length) :
    (slice_comps comps row).getD j (0, 0)
      = row.getD (comps.getD j 0) (0, 0) := by
  have h1 : j < (slice_comps comps row).length := by
    rw [slice_comps_length]; omega
  rw [List.getD_eq_getElem _ _ h1]
  simp only [slice_comps, List.getElem_map]
  rw [← List.getD_eq_getElem comps 0 hj]

theorem stack_real_to_complex_getD (w : Nat) (v : List ℚ) (j : Nat)
    (hj : j < w) (hv : v.length = 2 * w) :
    (stack_real_to_complex w v).getD j (0, 0)
      = (v.getD j 0, v.getD (w + j) 0) := by
  have hzl : (stack_real_to_complex w v).length = w := by
    rw [stack_real_to_complex, List.length_zip, List.length_take,
      List.length_drop, hv]
    omega
  have h1 : j < (stack_real_to_complex w v).length := by omega
  rw [List.getD_eq_getElem _ _ h1]
  simp only [stack_real_to_complex, List.getElem_zip, List.getElem_take,
    List.getElem_drop]
  rw [← List.getD_eq_getElem v 0 (by omega : j < v.length),
    ← List.getD_eq_getElem v 0 (by omega : w + j < v.length)]

theorem get_mean_response_length (data : List (List Cx)) (comps : List Nat)
    (labels : List Nat) :
    (get_mean_response data comps labels).length = num_clusts labels := by
  simp [get_mean_response]

theorem reorder_checked_error (labels : List Nat) (mr : List (List Cx))
    (Z : List (Nat × Nat)) (h : mr.length ≤ 1) :
    reorder_clusters_checked labels mr Z = Except.error
      "The number of observations cannot be determined on an empty distance matrix." := by
  rw [reorder_clusters_checked, if_pos ((pdist_pairs_eq_nil mr.length).mpr h)]

theorem reorder_checked_ok (labels : List Nat) (mr : List (List Cx))
    (Z : List (Nat × Nat)) (h : 2 ≤ mr.length) :
    reorder_clusters_checked labels mr Z
      = Except.ok (reorder_clusters labels mr Z) := by
  rw [reorder_clusters_checked, if_neg]
  intro hnil
  have := (pdist_pairs_eq_nil mr.length).mp hnil
  omega

/-- Shared shape of `Cluster.test` on the cache-hit path. -/
theorem test_hit (env : FitEnv) (re : Bool) (s : ClusterState)
    (r : ResultRecord) (h : s.duplicate_h5_groups.getLast? = some r) :
    Cluster.test env re false s
      = Except.ok (⟨r.recLabels, r.recCentroids⟩,
          { s with h5_results_grp := some r.grpId }) := by
  have hne : s.duplicate_h5_groups ≠ [] := by
    intro hnil
    rw [hnil] at h
    exact Option.noConfusion h
  rw [Cluster.test, if_pos ⟨rfl, hne⟩, h]

/-- A successful `Cluster.test` never touches the persisted file. -/
theorem test_ok_fileGroups (env : FitEnv) (re ov : Bool) (s : ClusterState)
    (o : TestOutput) (s1 : ClusterState)
    (h : Cluster.test env re ov s = Except.ok (o, s1)) :
    s1.fileGroups = s.fileGroups := by
  rw [Cluster.test] at h
  by_cases hc : ov = false ∧ s.duplicate_h5_groups ≠ []
  · rw [if_pos hc] at h
    cases hl : s.duplicate_h5_groups.getLast? with
    | none => rw [hl] at h; exact Except.noConfusion h
    | some r =>
      rw [hl] at h
      injection h with hpair
      injection hpair with ho hs
      rw [← hs]
  · rw [if_neg hc] at h
    by_cases hre : re
    · rw [if_pos hre] at h
      cases hrc : reorder_clusters_checked env.fitLabels
          (get_mean_response env.data env.comps env.fitLabels)
          env.linkageRows with
      | error e => rw [hrc] at h; exact Except.noConfusion h
      | ok pr =>
        rw [hrc] at h
        obtain ⟨l2, m2⟩ := pr
        injection h with hpair
        injection hpair with ho hs
        rw [← hs]
    · simp only [hre, if_false] at h
      injection h with hpair
      injection hpair with ho hs
      rw [← hs]

/-! ## Claims -/

/-- **C2.** If `override = False` and a persisted result group with a
matching fingerprint exists (the construction-time duplicate snapshot is
non-empty), `Cluster.test` returns exactly that last matching record's
stored labels and centroids, and the only state change is pointing
`h5_results_grp` at that group: the estimator is not fitted (`fitCount`
is unchanged) and nothing is recomputed or re-cached. -/
theorem C2_test_cache_hit (env : FitEnv) (rearrange : Bool)
    (s : ClusterState) (r : ResultRecord)
    (h : s.duplicate_h5_groups.getLast? = some r) :
    Cluster.test env rearrange false s
      = Except.ok (⟨r.recLabels, r.recCentroids⟩,
          { s with h5_results_grp := some r.grpId }) :=
  test_hit env rearrange s r h

/-- Witness for `C2_test_cache_hit` at a concrete state. -/
theorem C2_test_cache_hit_witness :
    Cluster.test two_point_env true false
        (constructed_state [sample_record] [sample_record] 8)
      = Except.ok (⟨sample_record.recLabels, sample_record.recCentroids⟩,
          { constructed_state [sample_record] [sample_record] 8 with
              h5_results_grp := some sample_record.grpId }) :=
  C2_test_cache_hit two_point_env true
    (constructed_state [sample_record] [sample_record] 8) sample_record rfl

/-- **C3.** `Cluster.__init__` raises its unsupported-estimator error
exactly for estimator types outside the five-family allowlist, and
succeeds through that gate exactly for the allowlisted families. -/
theorem C3_estimator_allowlist (e : SkEstimator) :
    ((∃ msg, check_estimator e = Except.error msg) ↔ e ∉ allowed_methods) ∧
    (check_estimator e = Except.ok () ↔ e ∈ allowed_methods) := by
  refine ⟨⟨?_, ?_⟩, ?_, ?_⟩
  · rintro ⟨msg, hmsg⟩ hmem
    rw [check_estimator, if_pos hmem] at hmsg
    exact Except.noConfusion hmsg
  · intro hmem
    exact ⟨_, by rw [check_estimator, if_neg hmem]⟩
  · intro hok
    by_contra hmem
    rw [check_estimator, if_neg hmem] at hok
    exact Except.noConfusion hok
  · intro hmem
    rw [check_estimator, if_pos hmem]

/-- Witness for `C3_estimator_allowlist`: a non-allowlisted estimator
(DBSCAN) is rejected, an allowlisted one (KMeans) passes the gate. -/
theorem C3_estimator_allowlist_witness :
    (((∃ msg, check_estimator (SkEstimator.other "DBSCAN")
          = Except.error msg) ↔
        SkEstimator.other "DBSCAN" ∉ allowed_methods) ∧
      (check_estimator (SkEstimator.other "DBSCAN") = Except.ok () ↔
        SkEstimator.other "DBSCAN" ∈ allowed_methods)) ∧
    (((∃ msg, check_estimator SkEstimator.kMeans = Except.error msg) ↔
        SkEstimator.kMeans ∉ allowed_methods) ∧
      (check_estimator SkEstimator.kMeans = Except.ok () ↔
        SkEstimator.kMeans ∈ allowed_methods)) :=
  ⟨C3_estimator_allowlist (SkEstimator.other "DBSCAN"),
   C3_estimator_allowlist SkEstimator.kMeans⟩

/-- **C8** is false on the code, and the code contradicts its own inline
comment ("we update this flag only after checking for duplicates"): the
`n_jobs := self._cores` update lands in `parms_dict` *before*
`_check_for_duplicates` runs, so two otherwise identical constructions
that differ only in the number of cores hand different parameter
snapshots to duplicate detection. -/
theorem C8_njobs_in_snapshot :
    mk_parms_dict "KMeans" (Sum.inl "all") [("n_clusters", Sum.inr 3)] 1
      ≠ mk_parms_dict "KMeans" (Sum.inl "all") [("n_clusters", Sum.inr 3)] 2 := by
  decide

/-- **C1** as stated is false on the code: on a freshly constructed
instance over a file with no matching group, the first
`compute(override=False)` persists group 0 and frees the cache, and the
second `compute` — because `_check_for_duplicates` ran only at
construction — re-fits and persists a second, duplicate group 1, so the
two calls return different handles and a duplicate group is created. -/
theorem C1_fresh_instance_duplicates :
    ((Cluster.compute two_point_env false false
        (constructed_state [] [] 0)).toOption.map Prod.fst = some 0) ∧
    ((((Cluster.compute two_point_env false false
          (constructed_state [] [] 0)).toOption.map Prod.snd).bind
        (fun s => (Cluster.compute two_point_env false false s).toOption)).map
          (fun p => (p.1, p.2.fileGroups.length)) = some (1, 2)) :=
  ⟨by decide, by decide⟩

/-- **C1 amended.** If the construction-time duplicate detection found at
least one persisted group with a matching fingerprint, then calling
`compute` twice with `override=False` returns a handle to the same
persisted result group (the last match) both times, and neither call
creates any group. On a freshly constructed instance with no
pre-existing match the second call creates a duplicate group, because
duplicate detection runs only at construction
(`C1_fresh_instance_duplicates`). -/
theorem C1_amended_idempotence (env : FitEnv) (re1 re2 : Bool)
    (dups file : List ResultRecord) (nid : Nat) (r : ResultRecord)
    (h : dups.getLast? = some r) :
    ∃ s1 : ClusterState,
      Cluster.compute env re1 false (constructed_state dups file nid)
        = Except.ok (r.grpId, s1) ∧
      Cluster.compute env re2 false s1 = Except.ok (r.grpId, s1) ∧
      s1.fileGroups = file := by
  refine ⟨{ constructed_state dups file nid with
              h5_results_grp := some r.grpId }, ?_, ?_, rfl⟩
  · rw [Cluster.compute, test_hit env re1 _ r h]
    rfl
  · rw [Cluster.compute, test_hit env re2 _ r h]
    rfl

/-- Witness for `C1_amended_idempotence` at a concrete pre-matched
state. -/
theorem C1_amended_idempotence_witness :
    ∃ s1 : ClusterState,
      Cluster.compute two_point_env false false
          (constructed_state [sample_record] [sample_record] 8)
        = Except.ok (sample_record.grpId, s1) ∧
      Cluster.compute two_point_env false false s1
        = Except.ok (sample_record.grpId, s1) ∧
      s1.fileGroups = [sample_record] :=
  C1_amended_idempotence two_point_env false false [sample_record]
    [sample_record] 8 sample_record rfl

/-- **C9.** Whenever `compute` persists a new result group (the file
grew), the state it returns has the cached labels, cached mean response
and pending group reference all cleared; and `delete_results` is a total
function that clears exactly those three fields — in particular it is
safe when nothing is cached. -/
theorem C9_cache_freed :
    (∀ (env : FitEnv) (re ov : Bool) (s : ClusterState) (g : Nat)
        (s' : ClusterState),
        Cluster.compute env re ov s = Except.ok (g, s') →
        s'.fileGroups.length ≠ s.fileGroups.length →
        s'.cachedLabels = none ∧ s'.cachedMeanResp = none ∧
          s'.h5_results_grp = none) ∧
    (∀ s : ClusterState, delete_results s
        = { s with cachedLabels := none, cachedMeanResp := none,
                   h5_results_grp := none }) := by
  refine ⟨?_, fun s => rfl⟩
  intro env re ov s g s' hc hne
  rw [Cluster.compute] at hc
  by_cases hcache : s.cachedLabels = none ∧ s.cachedMeanResp = none
  · rw [if_pos hcache] at hc
    cases ht : Cluster.test env re ov s with
    | error e =>
      rw [ht] at hc
      exact Except.noConfusion hc
    | ok pr =>
      obtain ⟨o, s1⟩ := pr
      rw [ht] at hc
      have hc2 : (match s1.h5_results_grp with
          | none => Except.ok ((write_results_chunk s1).1,
              delete_results (write_results_chunk s1).2)
          | some g0 => Except.ok (g0, s1)) = Except.ok (g, s') := hc
      split at hc2
      · injection hc2 with hpair
        injection hpair with h1 h2
        rw [← h2]
        exact ⟨rfl, rfl, rfl⟩
      · injection hc2 with hpair
        injection hpair with h1 h2
        exact absurd (by rw [← h2, test_ok_fileGroups env re ov s o s1 ht]) hne
  · rw [if_neg hcache] at hc
    have hc2 : (match s.h5_results_grp with
        | none => Except.ok ((write_results_chunk s).1,
            delete_results (write_results_chunk s).2)
        | some g0 => Except.ok (g0, s)) = Except.ok (g, s') := hc
    split at hc2
    · injection hc2 with hpair
      injection hpair with h1 h2
      rw [← h2]
      exact ⟨rfl, rfl, rfl⟩
    · injection hc2 with hpair
      injection hpair with h1 h2
      exact absurd (by rw [← h2]) hne

/-- Witness for `C9_cache_freed`: the state after a persisting `compute`
has all three fields cleared, and `delete_results` on it acts as
specified. -/
theorem C9_cache_freed_witness :
    (fresh_run_state.cachedLabels = none ∧
      fresh_run_state.cachedMeanResp = none ∧
      fresh_run_state.h5_results_grp = none) ∧
    delete_results fresh_run_state
      = { fresh_run_state with cachedLabels := none, cachedMeanResp := none,
                               h5_results_grp := none } :=
  ⟨C9_cache_freed.1 two_point_env false false (constructed_state [] [] 0) 0
      fresh_run_state (by rfl) (by decide),
   C9_cache_freed.2 fresh_run_state⟩

/-- **C10.** `reorder_clusters` is only defined for at least two
clusters: with exactly one centroid row the `pdist`/`linkage` step
errors, while with two or more rows it succeeds and the function returns
normally; consequently `test(rearrange_clusters=True)` on a fresh
instance fails whenever the estimator discovers a single cluster. -/
theorem C10_single_cluster_fails :
    (∀ (labels : List Nat) (mr : List (List Cx)) (Z : List (Nat × Nat)),
        mr.length = 1 →
        reorder_clusters_checked labels mr Z = Except.error
          "The number of observations cannot be determined on an empty distance matrix.") ∧
    (∀ (labels : List Nat) (mr : List (List Cx)) (Z : List (Nat × Nat)),
        2 ≤ mr.length →
        reorder_clusters_checked labels mr Z
          = Except.ok (reorder_clusters labels mr Z)) ∧
    (∀ (env : FitEnv) (ov : Bool) (s : ClusterState),
        s.duplicate_h5_groups = [] → num_clusts env.fitLabels = 1 →
        Cluster.test env true ov s = Except.error
          "The number of observations cannot be determined on an empty distance matrix.") := by
  refine ⟨fun labels mr Z h => reorder_checked_error labels mr Z (by omega),
          fun labels mr Z h => reorder_checked_ok labels mr Z h,
          fun env ov s hdup hk => ?_⟩
  rw [Cluster.test, if_neg (by rintro ⟨h1, h2⟩; exact h2 hdup)]
  rw [if_pos rfl,
    reorder_checked_error _ _ _ (by rw [get_mean_response_length]; omega)]

/-- Witness for `C10_single_cluster_fails` at concrete inputs. -/
theorem C10_single_cluster_fails_witness :
    (reorder_clusters_checked [0, 0] [[(1, 0)]] [] = Except.error
      "The number of observations cannot be determined on an empty distance matrix.") ∧
    (reorder_clusters_checked [0, 1] [[(1, 0)], [(3, 0)]] [(0, 1)]
      = Except.ok (reorder_clusters [0, 1] [[(1, 0)], [(3, 0)]] [(0, 1)])) ∧
    (Cluster.test one_cluster_env true false (constructed_state [] [] 0)
      = Except.error
      "The number of observations cannot be determined on an empty distance matrix.") :=
  ⟨C10_single_cluster_fails.1 [0, 0] [[(1, 0)]] [] rfl,
   C10_single_cluster_fails.2.1 [0, 1] [[(1, 0)], [(3, 0)]] [(0, 1)]
     (by decide),
   C10_single_cluster_fails.2.2 one_cluster_env false
     (constructed_state [] [] 0) rfl rfl⟩

/-- **C6.** For a structurally valid linkage over `K = mr.length ≥ 2`
leaves and labels below `K`, `reorder_clusters`: (i) derives the new
cluster order by walking the linkage rows in order and appending exactly
the original-leaf children (index `< K`) as encountered; (ii) that order
is a permutation of `{0, …, K-1}`; (iii) every position's label is
remapped from its old index to that index's rank in the permutation; and
(iv) output centroid row `r` equals the old centroid row at the `r`-th
entry of the permutation. -/
theorem C6_reorder_functional (labels : List Nat) (mr : List (List Cx))
    (Z : List (Nat × Nat)) (hK : 2 ≤ mr.length)
    (hv : ValidLinkage mr.length Z)
    (hl : ∀ l ∈ labels, l < mr.length) :
    (new_cluster_order mr.length Z
        = (children_list Z).filter (fun x => decide (x < mr.length))) ∧
    (new_cluster_order mr.length Z).Perm (List.range mr.length) ∧
    (∀ i, i < labels.length →
      ((reorder_clusters labels mr Z).1).getD i 0
        = (new_cluster_order mr.length Z).indexOf (labels.getD i 0)) ∧
    (∀ r, r < mr.length →
      ((reorder_clusters labels mr Z).2).getD r []
        = mr.getD ((new_cluster_order mr.length Z).getD r 0) (zero_row mr)) := by
  refine ⟨new_cluster_order_eq_filter _ _, new_cluster_order_perm hK hv,
    ?_, ?_⟩
  · intro i hi
    have hmem : labels.getD i 0 ∈ new_cluster_order mr.length Z := by
      rw [new_cluster_order_mem hK hv]
      apply hl
      rw [List.getD_eq_getElem _ _ hi]
      exact List.getElem_mem hi
    exact reorder_labels_getD _ labels i (new_cluster_order_nodup hK hv)
      hi hmem
  · intro r hr
    exact reorder_centroids_getD _ mr r [] hr
      (by rw [new_cluster_order_length hK hv]; omega)

/-- Witness for `C6_reorder_functional` on the `mr3`/`Z3`/`labels3`
fixture, with the pointwise parts instantiated at position 3 and
centroid row 2. -/
theorem C6_reorder_functional_witness :
    (new_cluster_order mr3.length Z3
        = (children_list Z3).filter (fun x => decide (x < mr3.length))) ∧
    (new_cluster_order mr3.length Z3).Perm (List.range mr3.length) ∧
    (((reorder_clusters labels3 mr3 Z3).1).getD 3 0
      = (new_cluster_order mr3.length Z3).indexOf (labels3.getD 3 0)) ∧
    (((reorder_clusters labels3 mr3 Z3).2).getD 2 []
      = mr3.getD ((new_cluster_order mr3.length Z3).getD 2 0)
          (zero_row mr3)) :=
  have h := C6_reorder_functional labels3 mr3 Z3 (by decide)
    ⟨rfl, by decide, by decide⟩ (by decide)
  ⟨h.1, h.2.1, h.2.2.1 3 (by decide), h.2.2.2 2 (by decide)⟩

/-- **C5.** For at least two clusters, a valid linkage, and labels within
range, `reorder_clusters` only renames labels: a position carries the
old label `c` exactly when it carries the new label `indexOf c order`
after reordering, so the partition of positions into clusters is
unchanged. -/
theorem C5_partition_preserved (labels : List Nat) (mr : List (List Cx))
    (Z : List (Nat × Nat)) (hK : 2 ≤ mr.length)
    (hv : ValidLinkage mr.length Z)
    (hl : ∀ l ∈ labels, l < mr.length) :
    ∀ c, c < mr.length → ∀ i, i < labels.length →
      (labels.getD i 0 = c ↔
        ((reorder_clusters labels mr Z).1).getD i 0
          = (new_cluster_order mr.length Z).indexOf c) := by
  intro c hc i hi
  have hnd := new_cluster_order_nodup hK hv
  have hmem : labels.getD i 0 ∈ new_cluster_order mr.length Z := by
    rw [new_cluster_order_mem hK hv]
    apply hl
    rw [List.getD_eq_getElem _ _ hi]
    exact List.getElem_mem hi
  have hcm : c ∈ new_cluster_order mr.length Z :=
    (new_cluster_order_mem hK hv c).mpr hc
  have hpt : ((reorder_clusters labels mr Z).1).getD i 0
      = (new_cluster_order mr.length Z).indexOf (labels.getD i 0) :=
    reorder_labels_getD _ labels i hnd hi hmem
  rw [hpt]
  constructor
  · intro h
    rw [h]
  · intro h
    exact (List.indexOf_inj hmem hcm).mp h

/-- Witness for `C5_partition_preserved` on the fixture at position 3,
old label 2. -/
theorem C5_partition_preserved_witness :
    labels3.getD 3 0 = 2 ↔
      ((reorder_clusters labels3 mr3 Z3).1).getD 3 0
        = (new_cluster_order mr3.length Z3).indexOf 2 :=
  C5_partition_preserved labels3 mr3 Z3 (by decide)
    ⟨rfl, by decide, by decide⟩ (by decide) 2 (by decide) 3 (by decide)

/-- With a duplicate-free order enumerating exactly `{0, …, K-1}` and
labels covering exactly `{0, …, K-1}`, the relabelled vector also covers
exactly `{0, …, K-1}`. -/
theorem reorder_labels_mem_iff (order labels : List Nat) (K : Nat)
    (hnd : order.Nodup) (holen : order.length = K)
    (homem : ∀ x, x ∈ order ↔ x < K)
    (hin : ∀ l ∈ labels, l < K) (hcover : ∀ l, l < K → l ∈ labels) :
    ∀ x, x ∈ reorder_labels order labels ↔ x < K := by
  have hlen1 := reorder_labels_length order labels
  intro x
  constructor
  · intro hx
    obtain ⟨i, hi, hval⟩ := List.mem_iff_getElem.mp hx
    have hil : i < labels.length := by rw [← hlen1]; exact hi
    have hlm : labels.getD i 0 ∈ order := by
      rw [homem]
      exact hin _
        (by rw [List.getD_eq_getElem _ _ hil]; exact List.getElem_mem hil)
    have hpt := reorder_labels_getD order labels i hnd hil hlm
    have hx2 : x = order.indexOf (labels.getD i 0) := by
      rw [← hpt, List.getD_eq_getElem _ _ hi, hval]
    rw [hx2, ← holen]
    exact List.indexOf_lt_length.mpr hlm
  · intro hx
    have hxo : x < order.length := by omega
    have hoin : order.getD x 0 ∈ order := by
      rw [List.getD_eq_getElem _ _ hxo]
      exact List.getElem_mem hxo
    have hoK : order.getD x 0 < K := (homem _).mp hoin
    obtain ⟨i, hil, hlab⟩ := List.mem_iff_getElem.mp (hcover _ hoK)
    have hlm : labels.getD i 0 ∈ order := by
      rw [List.getD_eq_getElem _ _ hil, hlab]
      exact hoin
    have hpt := reorder_labels_getD order labels i hnd hil hlm
    have hlt : order.indexOf (labels.getD i 0) < order.length :=
      List.indexOf_lt_length.mpr hlm
    have hgid : order[order.indexOf (labels.getD i 0)] = order[x] := by
      rw [List.getElem_indexOf hlt, List.getD_eq_getElem _ _ hil, hlab,
        List.getD_eq_getElem _ _ hxo]
    have hidx : order.indexOf (labels.getD i 0) = x :=
      (hnd.getElem_inj_iff).mp hgid
    have hiv : i < (reorder_labels order labels).length := by
      rw [hlen1]
      exact hil
    have hfin : (reorder_labels order labels)[i] = x := by
      rw [← List.getD_eq_getElem _ 0 hiv, hpt, hidx]
    rw [← hfin]
    exact List.getElem_mem hiv

/-- **C4.** The count of distinct label values equals the centroid
matrix's row count: unconditionally for the unreordered outputs of
`test` (`_get_mean_response` builds one row per distinct label), and,
when the fitted labels cover exactly `{0, …, K-1}` (sklearn's
partitioners guarantee this) and the linkage is valid, also after
`reorder_clusters`. -/
theorem C4_cardinality (data : List (List Cx)) (comps : List Nat) :
    (∀ labels : List Nat,
      (get_mean_response data comps labels).length = labels.dedup.length) ∧
    (∀ (labels : List Nat) (Z : List (Nat × Nat)),
      2 ≤ num_clusts labels →
      (∀ l ∈ labels, l < num_clusts labels) →
      (∀ l, l < num_clusts labels → l ∈ labels) →
      ValidLinkage (num_clusts labels) Z →
      ((reorder_clusters labels (get_mean_response data comps labels)
          Z).1).dedup.length
        = ((reorder_clusters labels (get_mean_response data comps labels)
            Z).2).length) := by
  constructor
  · intro labels
    exact get_mean_response_length data comps labels
  · intro labels Z hK hin hcover hv
    have hmr : (get_mean_response data comps labels).length
        = num_clusts labels := get_mean_response_length data comps labels
    have hv2 : ValidLinkage (get_mean_response data comps labels).length Z := by
      rw [hmr]
      exact hv
    have hK2 : 2 ≤ (get_mean_response data comps labels).length := by
      rw [hmr]
      exact hK
    have hnd := new_cluster_order_nodup hK2 hv2
    have holen := new_cluster_order_length hK2 hv2
    have hmem_iff := reorder_labels_mem_iff
      (new_cluster_order (get_mean_response data comps labels).length Z)
      labels (num_clusts labels) hnd (by rw [holen, hmr])
      (fun x => by rw [new_cluster_order_mem hK2 hv2, hmr]) hin hcover
    show (reorder_labels
        (new_cluster_order (get_mean_response data comps labels).length Z)
        labels).dedup.length
      = (reorder_centroids
          (new_cluster_order (get_mean_response data comps labels).length Z)
          (get_mean_response data comps labels)).length
    rw [dedup_length_of_mem_iff hmem_iff, reorder_centroids_length, hmr]

/-- Witness for `C4_cardinality` on the fixture (four positions, three
clusters, reordered by `Z3`). -/
theorem C4_cardinality_witness :
    ((get_mean_response cdata2 [0] labels3).length = labels3.dedup.length) ∧
    (((reorder_clusters labels3 (get_mean_response cdata2 [0] labels3)
        Z3).1).dedup.length
      = ((reorder_clusters labels3 (get_mean_response cdata2 [0] labels3)
          Z3).2).length) :=
  ⟨(C4_cardinality cdata2 [0]).1 labels3,
   (C4_cardinality cdata2 [0]).2 labels3 Z3 (by decide) (by decide)
     (by decide) ⟨rfl, by decide, by decide⟩⟩

/-- **C7.** For a labels vector covering exactly `{0, …, K-1}`, the
mean-response matrix has one row per cluster, ordered by increasing
cluster index, and entry `j` of row `c` is the arithmetic mean —
computed componentwise in flattened real scalar space and stacked back
to the complex dtype — of selected feature column `comps[j]` over
exactly the positions whose label equals `c`. -/
theorem C7_mean_response (data : List (List Cx)) (comps labels : List Nat)
    (hin : ∀ l ∈ labels, l < num_clusts labels)
    (hcover : ∀ l, l < num_clusts labels → l ∈ labels) :
    (get_mean_response data comps labels).length = num_clusts labels ∧
    (∀ c, c < num_clusts labels → ∀ j, j < comps.length →
      ((get_mean_response data comps labels).getD c []).getD j (0, 0)
        = (((targ_pos labels c).map (fun i =>
              ((data.getD i []).getD (comps.getD j 0) (0, 0)).1)).sum
             / ((targ_pos labels c).length : ℚ),
           ((targ_pos labels c).map (fun i =>
              ((data.getD i []).getD (comps.getD j 0) (0, 0)).2)).sum
             / ((targ_pos labels c).length : ℚ))) := by
  refine ⟨get_mean_response_length data comps labels, ?_⟩
  intro c hc j hj
  have hrow : (get_mean_response data comps labels).getD c []
      = mean_resp_for_cluster data comps labels c := by
    have hcl : c < (get_mean_response data comps labels).length := by
      rw [get_mean_response_length]
      exact hc
    rw [List.getD_eq_getElem _ _ hcl]
    simp only [get_mean_response, List.getElem_map, List.getElem_range]
  rw [hrow]
  have hrows : ∀ r ∈ (targ_pos labels c).map
      (fun i => flatten_complex_row (slice_comps comps (data.getD i []))),
      r.length = 2 * comps.length := by
    intro r hr
    obtain ⟨i, hi, rfl⟩ := List.mem_map.mp hr
    rw [flatten_complex_row_length, slice_comps_length]
  have hml : (col_mean (2 * comps.length) ((targ_pos labels c).map
      (fun i => flatten_complex_row
        (slice_comps comps (data.getD i []))))).length
      = 2 * comps.length := by
    rw [col_mean, List.length_map]
    exact col_sum_length _ _ hrows
  show (stack_real_to_complex comps.length
      (col_mean (2 * comps.length) ((targ_pos labels c).map
        (fun i => flatten_complex_row
          (slice_comps comps (data.getD i [])))))).getD j (0, 0) = _
  rw [stack_real_to_complex_getD comps.length _ j hj hml]
  rw [col_mean_getD (2 * comps.length) j (by omega) _ hrows]
  rw [col_mean_getD (2 * comps.length) (comps.length + j) (by omega) _ hrows]
  have hfst : ((targ_pos labels c).map
      (fun i => flatten_complex_row (slice_comps comps (data.getD i [])))).map
        (fun r => r.getD j 0)
      = (targ_pos labels c).map (fun i =>
          ((data.getD i []).getD (comps.getD j 0) (0, 0)).1) := by
    rw [List.map_map]
    apply List.map_congr_left
    intro i hi
    show (flatten_complex_row (slice_comps comps (data.getD i []))).getD j 0
      = ((data.getD i []).getD (comps.getD j 0) (0, 0)).1
    rw [flatten_complex_row_getD_fst _ _
        (by rw [slice_comps_length]; exact hj),
      slice_comps_getD comps _ j hj]
  have hsnd : ((targ_pos labels c).map
      (fun i => flatten_complex_row (slice_comps comps (data.getD i [])))).map
        (fun r => r.getD (comps.length + j) 0)
      = (targ_pos labels c).map (fun i =>
          ((data.getD i []).getD (comps.getD j 0) (0, 0)).2) := by
    rw [List.map_map]
    apply List.map_congr_left
    intro i hi
    show (flatten_complex_row (slice_comps comps (data.getD i []))).getD
        (comps.length + j) 0
      = ((data.getD i []).getD (comps.getD j 0) (0, 0)).2
    have hsl : (slice_comps comps (data.getD i [])).length = comps.length :=
      slice_comps_length comps (data.getD i [])
    rw [show comps.length + j
        = (slice_comps comps (data.getD i [])).length + j by rw [hsl]]
    rw [flatten_complex_row_getD_snd _ j (by rw [hsl]; exact hj),
      slice_comps_getD comps _ j hj]
  rw [hfst, hsnd, List.length_map]

/-- Witness for `C7_mean_response` on the two-position complex fixture,
instantiated at cluster 1, feature entry 0. -/
theorem C7_mean_response_witness :
    (get_mean_response cdata2 [0] [0, 1]).length = num_clusts [0, 1] ∧
    ((get_mean_response cdata2 [0] [0, 1]).getD 1 []).getD 0 (0, 0)
      = (((targ_pos [0, 1] 1).map (fun i =>
            ((cdata2.getD i []).getD (([0] : List Nat).getD 0 0)
              (0, 0)).1)).sum
           / ((targ_pos [0, 1] 1).length : ℚ),
         ((targ_pos [0, 1] 1).map (fun i =>
            ((cdata2.getD i []).getD (([0] : List Nat).getD 0 0)
              (0, 0)).2)).sum
           / ((targ_pos [0, 1] 1).length : ℚ)) :=
  have h := C7_mean_response cdata2 [0] [0, 1] (by decide) (by decide)
  ⟨h.1, h.2 1 (by decide) 0 (by decide)⟩

end Pycro